import Mathlib

/-!
Verification of the resilient AI-call orchestration core of the speakpro
application. The authoritative implementation embedded here is the
`geminiService.ts` variant that contains the rate governor and the
not-found classification (the variant whose line numbers the claim
sources cite): `getApiKey`, `waitForRateLimit`, `callWithModelFallback`,
`evaluatePresentation` (its `normalize` post-processing), and
`decodeAudioData`. JavaScript numbers for rubric scores are modelled as
rationals, timestamps as integers (milliseconds), byte buffers as lists
of naturals below 256. Asynchronous sleeping is modelled by explicit
time passing: a call that computes a wait of `w` milliseconds resumes at
`now + w`.
-/

namespace SpeakPro

/-! ## Credential Resolver

Source:
  export function getApiKey(): string {
    const userKey = localStorage.getItem('speakpro_api_key');
    if (userKey && userKey.trim()) return userKey.trim();
    const envKey = process.env.API_KEY;
    if (envKey && envKey.trim()) return envKey.trim();
    throw new Error(...);
  }
`localStorage.getItem` returns the stored string or null, modelled as
`Option String`. JavaScript truthiness of a string is nonemptiness. -/

/-- JavaScript truthiness of a string value. -/
def jsTruthy (s : String) : Bool := s ≠ ""

/-- JavaScript `String.prototype.trim`: strip leading and trailing
whitespace (modelled structurally on the character list so that it
evaluates inside the kernel). -/
def jsTrim (s : String) : String :=
  ⟨((s.data.dropWhile Char.isWhitespace).reverse.dropWhile Char.isWhitespace).reverse⟩

/-- The user-facing message thrown when no credential is available. -/
def missingKeyMsg : String := "⚠️ Chưa có API Key! Vào Settings (⚙️) để nhập key."

/-- Shallow embedding of `getApiKey`; `userKey` is the local-store value,
`envKey` the ambient environment value. -/
def getApiKey (userKey envKey : Option String) : Except String String :=
  match userKey with
  | some uk =>
    if jsTruthy uk && jsTruthy (jsTrim uk) then .ok (jsTrim uk)
    else
      match envKey with
      | some ek =>
        if jsTruthy ek && jsTruthy (jsTrim ek) then .ok (jsTrim ek) else .error missingKeyMsg
      | none => .error missingKeyMsg
  | none =>
    match envKey with
    | some ek =>
      if jsTruthy ek && jsTruthy (jsTrim ek) then .ok (jsTrim ek) else .error missingKeyMsg
    | none => .error missingKeyMsg

/-! ## Response Normalizer (evaluatePresentation post-processing)

Source:
  const normalize = (val: number | undefined) => {
    const num = val || 0;
    return Math.min(10, Math.max(0, Math.round(num * 10) / 10));
  };
`Math.round` rounds half-way cases toward positive infinity, exactly as
Mathlib `round` on the rationals. An absent field is `none`. -/

/-- Shallow embedding of the `normalize` helper of `evaluatePresentation`. -/
def normalize (val : Option ℚ) : ℚ :=
  let num := val.getD 0
  min 10 (max 0 ((round (num * 10) : ℚ) / 10))

/-- The numeric and list-valued fields of the raw JSON object parsed from
the remote response; every field may be absent. -/
structure RawEval where
  pronunciation : Option ℚ
  fluency : Option ℚ
  intonation : Option ℚ
  vocabulary : Option ℚ
  grammar : Option ℚ
  taskFulfillment : Option ℚ
  perceivedLevel : Option String
  keyVocabulary : Option (List String)
  mistakes : Option (List (String × String))

/-- The fields of the returned `EvaluationResult` relevant to the
normalization and overriding behaviour. -/
structure EvalOut where
  pronunciation : ℚ
  fluency : ℚ
  intonation : ℚ
  vocabulary : ℚ
  grammar : ℚ
  taskFulfillment : ℚ
  score : ℚ
  perceivedLevel : String
  keyVocabulary : List String
  mistakes : List (String × String)

/-- Shallow embedding of the result construction of `evaluatePresentation`:
the spread of `raw` followed by the normalized sub-scores, the derived
aggregate, and the explicit overrides
`perceivedLevel: level, keyVocabulary: [], mistakes: []` (which win over
any homonymous field of `raw` because they come after the spread). -/
def evaluateResult (raw : RawEval) (level : String) : EvalOut :=
  let p := normalize raw.pronunciation
  let f := normalize raw.fluency
  let i := normalize raw.intonation
  let v := normalize raw.vocabulary
  let g := normalize raw.grammar
  let t := normalize raw.taskFulfillment
  let avg := (p + f + i + v + g + t) / 6
  { pronunciation := p, fluency := f, intonation := i, vocabulary := v,
    grammar := g, taskFulfillment := t, score := normalize (some avg),
    perceivedLevel := level, keyVocabulary := [], mistakes := [] }

/-! ## Rate Governor

Source:
  const requestTimestamps: number[] = [];
  const MAX_RPM = 8;
  async function waitForRateLimit(): Promise<void> {
    const now = Date.now();
    while (requestTimestamps.length > 0 && requestTimestamps[0] < now - 60000) {
      requestTimestamps.shift();
    }
    if (requestTimestamps.length >= MAX_RPM) {
      const waitTime = requestTimestamps[0] + 60000 - now + 500;
      await new Promise(resolve => setTimeout(resolve, waitTime));
    }
    requestTimestamps.push(Date.now());
  }
The shared mutable array is modelled by explicit state passing. The
function is split at its single suspension point: `admitCheck` is
everything before the `await` (the pruning `while` loop is a
`dropWhile` from the front, and `requestTimestamps[0]` is the head of
the pruned list, guaranteed nonempty under the `>= MAX_RPM` guard), and
`admitRecord` is the `push` after the `await`. `waitForRateLimit` is
their sequential composition, where `Date.now()` after sleeping
`waitTime` milliseconds is idealized as `now + waitTime`. -/

/-- Rate Governor cap, kept below the hard 10-requests-per-minute limit. -/
def MAX_RPM : Nat := 8

/-- The pre-suspension half of `waitForRateLimit`: prune timestamps older
than 60 seconds, then compute the wait (0 when under cap). Returns the
wait and the pruned shared state. -/
def admitCheck (st : List ℤ) (now : ℤ) : ℤ × List ℤ :=
  let pruned := st.dropWhile (fun t => decide (t < now - 60000))
  if MAX_RPM ≤ pruned.length then (pruned.headD 0 + 60000 - now + 500, pruned)
  else (0, pruned)

/-- The post-suspension half of `waitForRateLimit`: push the current
timestamp. -/
def admitRecord (st : List ℤ) (t : ℤ) : List ℤ := st ++ [t]

/-- One complete sequential `waitForRateLimit` call starting at `now`:
check, sleep for the computed wait, then record at the resumed time. -/
def waitForRateLimit (st : List ℤ) (now : ℤ) : ℤ × List ℤ :=
  ((admitCheck st now).1, admitRecord (admitCheck st now).2 (now + (admitCheck st now).1))

/-- Folding step for a sequence of sequential admissions: accumulates the
waits and threads the shared timestamp state. -/
def admitStep (p : List ℤ × List ℤ) (t : ℤ) : List ℤ × List ℤ :=
  (p.1 ++ [(waitForRateLimit p.2 t).1], (waitForRateLimit p.2 t).2)

/-- The waits incurred by a sequence of admissions requested at the given
times, starting from the empty timestamp state. -/
def admitWaits (times : List ℤ) : List ℤ := (times.foldl admitStep ([], [])).1

/-- The decision-point window occupancies (the pruned lengths seen by the
cap check) along a sequential run: each next admission is requested the
given gap after the previous call returned. -/
def seqCounts : List ℤ → ℤ → List ℕ → List ℕ
  | _, _, [] => []
  | st, now, g :: gs =>
    (admitCheck st (now + g)).2.length ::
      seqCounts (admitRecord (admitCheck st (now + g)).2 (now + g + (admitCheck st (now + g)).1))
        (now + g + (admitCheck st (now + g)).1) gs

/-! ## Audio Codec Adapter

Source:
  export async function decodeAudioData(data, ctx, sampleRate, numChannels) {
    const dataInt16 = new Int16Array(data.buffer);
    const frameCount = dataInt16.length / numChannels;
    const buffer = ctx.createBuffer(numChannels, frameCount, sampleRate);
    for (let channel = 0; channel < numChannels; channel++) {
      const channelData = buffer.getChannelData(channel);
      for (let i = 0; i < frameCount; i++)
        channelData[i] = dataInt16[i * numChannels + channel] / 32768.0;
    }
    return buffer;
  }
Bytes are naturals below 256; `Int16Array` reads consecutive byte pairs
as little-endian signed 16-bit integers; samples are rationals. The
re-encoder (`encodeSample`, `int16ToBytes`, `interleave`, `encodePCM`)
is the inverse direction stated by the spec round-trip property
(multiply by 32768, round, clamp to [-32768, 32767], serialize
little-endian two's complement). -/

/-- A little-endian byte pair read as a signed 16-bit integer. -/
def bytesToInt16 (lo hi : ℕ) : ℤ :=
  if lo + 256 * hi < 32768 then ((lo + 256 * hi : ℕ) : ℤ)
  else ((lo + 256 * hi : ℕ) : ℤ) - 65536

/-- The `Int16Array` view of a byte buffer: consecutive little-endian
byte pairs as signed 16-bit integers. -/
def toInt16s : List ℕ → List ℤ
  | lo :: hi :: rest => bytesToInt16 lo hi :: toInt16s rest
  | _ => []

/-- Shallow embedding of `decodeAudioData`: the per-channel sample
arrays, `channelData[channel][i] = dataInt16[i * numChannels + channel] / 32768`. -/
def decodeAudioData (data : List ℕ) (numChannels : ℕ) : List (List ℚ) :=
  List.ofFn fun c : Fin numChannels =>
    List.ofFn fun i : Fin ((toInt16s data).length / numChannels) =>
      (((toInt16s data).getD ((i : ℕ) * numChannels + (c : ℕ)) 0 : ℤ) : ℚ) / 32768

/-- Re-encoding of one sample as stated by the round-trip property:
scale by 32768, round, clamp to [-32768, 32767]. -/
def encodeSample (x : ℚ) : ℤ := max (-32768) (min 32767 (round (x * 32768)))

/-- Little-endian two's-complement serialization of a 16-bit integer. -/
def int16ToBytes (s : ℤ) : List ℕ := [(s % 65536).toNat % 256, (s % 65536).toNat / 256]

/-- Re-interleave per-channel sample arrays into one flat sample list. -/
def interleave (channels : List (List ℚ)) (numChannels frameCount : ℕ) : List ℚ :=
  List.ofFn fun j : Fin (frameCount * numChannels) =>
    (channels.getD ((j : ℕ) % numChannels) []).getD ((j : ℕ) / numChannels) 0

/-- Full re-encoding of decoded channels back to a byte buffer. -/
def encodePCM (channels : List (List ℚ)) (numChannels frameCount : ℕ) : List ℕ :=
  ((interleave channels numChannels frameCount).map
    (fun x => int16ToBytes (encodeSample x))).flatten

/-! ## Model Fallback Orchestrator

Source (callWithModelFallback, maxRetries defaulting to 2):
  for (const model of models) {
    let delay = 3000;
    for (let attempt = 0; attempt < maxRetries; attempt++) {
      try {
        await waitForRateLimit();
        return await fn(model);
      } catch (err) {
        lastError = err;
        const errorStr = JSON.stringify(err).toLowerCase();
        const isNotFound = err?.status === 404 || errorStr.includes('not_found');
        const isRateLimit = err?.status === 429 || errorStr.includes('quota')
          || errorStr.includes('rate limit') || errorStr.includes('resource_exhausted');
        const isServerError = err?.status >= 500 || errorStr.includes('internal error');
        if (isNotFound) { break; }
        if (isRateLimit && attempt < maxRetries - 1) {
          await sleep(delay * 2); delay *= 2; continue;
        }
        if (isServerError && attempt < maxRetries - 1) {
          await sleep(delay); delay *= 2; continue;
        }
        if (models.indexOf(model) < models.length - 1) { break; }
        throw err;
      }
    }
  }
  throw new Error(... user-facing quota message ...);
An error is a status (absent or an integer) together with the lowercased
serialized error body. The unit of work `fn` receives the global attempt
counter (so that per-attempt behaviour is expressible) and the model
name. The run produces the event trace (attempts and backoff sleeps),
the final attempt counter, and the outcome: a successful value, the raw
last error rethrown, or the synthesized exhausted error. -/

/-- A provider error: optional HTTP-like status plus the lowercased
serialized body. -/
structure JsError where
  status : Option ℤ
  text : String
deriving DecidableEq

/-- Whether `pat` occurs at the start of `l`. -/
def leadsWith : List Char → List Char → Bool
  | _, [] => true
  | [], _ :: _ => false
  | a :: as, b :: bs => a == b && leadsWith as bs

/-- Whether `pat` occurs as a contiguous segment of `l`. -/
def containsSeg (l pat : List Char) : Bool :=
  match l with
  | [] => pat.isEmpty
  | _ :: rest => leadsWith l pat || containsSeg rest pat

/-- JavaScript `String.prototype.includes`. -/
def strContains (s pat : String) : Bool := containsSeg s.data pat.data

/-- Classification `isNotFound` of the source. -/
def isNotFound (e : JsError) : Bool :=
  e.status == some 404 || strContains e.text "not_found"

/-- Classification `isRateLimit` of the source. -/
def isRateLimit (e : JsError) : Bool :=
  e.status == some 429 || strContains e.text "quota" || strContains e.text "rate limit" ||
    strContains e.text "resource_exhausted"

/-- Classification `isServerError` of the source (`err?.status >= 500` is
false when the status is absent). -/
def isServerError (e : JsError) : Bool :=
  (match e.status with | some s => decide (500 ≤ s) | none => false) ||
    strContains e.text "internal error"

/-- Observable events of an orchestration run: attempts against a model
and backoff sleeps (milliseconds). -/
inductive Ev where
  | attempt (model : String)
  | sleep (ms : ℕ)
deriving DecidableEq

/-- How the per-model retry loop ends: a successful value, advancing to
the next model (`break` or loop exhaustion), or rethrowing the raw
error from the last model. -/
inductive ModelStep (T : Type) where
  | success (v : T)
  | advance
  | thrown (e : JsError)
deriving DecidableEq

/-- The outcome of a whole run: success, the raw error thrown to the
caller, or the synthesized exhausted error. -/
inductive FbOutcome (T : Type) where
  | ok (v : T)
  | raw (e : JsError)
  | exhausted (msg : String)
deriving DecidableEq

def ModelStep.isThrown {T : Type} : ModelStep T → Bool
  | .thrown _ => true
  | _ => false

def FbOutcome.isRaw {T : Type} : FbOutcome T → Bool
  | .raw _ => true
  | _ => false

/-- The synthesized user-facing message thrown when the whole chain is
exhausted. -/
def exhaustedMsg : String :=
  "⚠️ API Key hết quota!\n\nHãy:\n1. Nhấn nút ⚙️ để đổi key mới\n2. Hoặc chờ 1 phút rồi thử lại"

/-- The inner retry loop for one model, on remaining-attempt fuel `r`
(the source condition `attempt < maxRetries - 1` is `0 < r` here),
current backoff `delay`, and global attempt counter `n`. -/
def runAttempts {T : Type} (fn : ℕ → String → Except JsError T) (model : String)
    (isLast : Bool) : ℕ → ℕ → ℕ → List Ev × ℕ × ModelStep T
  | 0, _, n => ([], n, .advance)
  | r + 1, delay, n =>
    match fn n model with
    | .ok v => ([.attempt model], n + 1, .success v)
    | .error e =>
      if isNotFound e then ([.attempt model], n + 1, .advance)
      else if isRateLimit e ∧ 0 < r then
        let rest := runAttempts fn model isLast r (delay * 2) (n + 1)
        (.attempt model :: .sleep (delay * 2) :: rest.1, rest.2)
      else if isServerError e ∧ 0 < r then
        let rest := runAttempts fn model isLast r (delay * 2) (n + 1)
        (.attempt model :: .sleep delay :: rest.1, rest.2)
      else if !isLast then ([.attempt model], n + 1, .advance)
      else ([.attempt model], n + 1, .thrown e)

/-- The outer model loop: each model starts with `delay = 3000`; when the
list is exhausted the synthesized exhausted error is thrown. -/
def runChain {T : Type} (fn : ℕ → String → Except JsError T) :
    List String → ℕ → ℕ → List Ev × ℕ × FbOutcome T
  | [], _, n => ([], n, .exhausted exhaustedMsg)
  | m :: rest, maxRetries, n =>
    let r := runAttempts fn m rest.isEmpty maxRetries 3000 n
    match r.2.2 with
    | .success v => (r.1, r.2.1, .ok v)
    | .thrown e => (r.1, r.2.1, .raw e)
    | .advance =>
      let rr := runChain fn rest maxRetries r.2.1
      (r.1 ++ rr.1, rr.2)

/-- The configured text-model chain. -/
def MODEL_FALLBACK_CHAIN : List String := ["gemini-2.5-flash-lite", "gemini-2.5-flash"]

/-- `callWithModelFallback` over the configured chain. -/
def callWithModelFallback {T : Type} (fn : ℕ → String → Except JsError T) (maxRetries : ℕ) :
    List Ev × ℕ × FbOutcome T :=
  runChain fn MODEL_FALLBACK_CHAIN maxRetries 0

/-- Number of attempts in an event trace. -/
def countAttempts (evs : List Ev) : ℕ :=
  evs.countP fun ev => match ev with | .attempt _ => true | .sleep _ => false

/-- A unit of work that always fails rate-limited. -/
def alwaysQuota : ℕ → String → Except JsError ℕ := fun _ _ => .error ⟨some 429, "quota"⟩

/-- A unit of work that always fails not-found. -/
def alwaysNotFound : ℕ → String → Except JsError ℕ :=
  fun _ _ => .error ⟨some 404, "not_found"⟩

/-! ## Properties -/

/-! Basic facts about `normalize`. -/

theorem normalize_nonneg (v : Option ℚ) : 0 ≤ normalize v := by
  unfold normalize
  exact le_min (by norm_num) (le_max_left 0 _)

theorem normalize_le_ten (v : Option ℚ) : normalize v ≤ 10 :=
  min_le_left 10 _

theorem normalize_one_decimal (v : Option ℚ) : ∃ k : ℤ, normalize v = (k : ℚ) / 10 := by
  have hnv : normalize v = min 10 (max 0 ((round ((v.getD 0) * 10) : ℚ) / 10)) := rfl
  rw [hnv]
  set y : ℚ := (round ((v.getD 0) * 10) : ℚ) / 10 with hy
  by_cases h0 : y ≤ 0
  · refine ⟨0, ?_⟩
    rw [max_eq_left h0, min_eq_right (by norm_num)]
    norm_num
  · rw [max_eq_right (le_of_not_le h0)]
    by_cases h10 : y ≤ 10
    · exact ⟨round ((v.getD 0) * 10), by rw [min_eq_right h10]⟩
    · exact ⟨100, by rw [min_eq_left (le_of_not_le h10)]; norm_num⟩

theorem normalize_none : normalize none = 0 := by
  unfold normalize
  norm_num

theorem admitCheck_def (st : List ℤ) (now : ℤ) :
    admitCheck st now =
      if MAX_RPM ≤ (st.dropWhile (fun t => decide (t < now - 60000))).length then
        ((st.dropWhile (fun t => decide (t < now - 60000))).headD 0 + 60000 - now + 500,
          st.dropWhile (fun t => decide (t < now - 60000)))
      else (0, st.dropWhile (fun t => decide (t < now - 60000))) := rfl

theorem dropWhile_head_false {p : ℤ → Bool} :
    ∀ {l : List ℤ} {a : ℤ} {r : List ℤ}, l.dropWhile p = a :: r → p a = false := by
  intro l
  induction l with
  | nil => intro a r h; simp [List.dropWhile] at h
  | cons x xs ih =>
    intro a r h
    rw [List.dropWhile_cons] at h
    by_cases hx : p x
    · rw [if_pos hx] at h; exact ih h
    · rw [if_neg hx] at h
      obtain ⟨rfl, -⟩ := List.cons.injEq .. ▸ h
      exact eq_false_of_ne_true (by simpa using hx)

theorem prune_cons_keep {a : ℤ} {l : List ℤ} {now : ℤ} (h : ¬ a < now - 60000) :
    (a :: l).dropWhile (fun t => decide (t < now - 60000)) = a :: l := by
  rw [List.dropWhile_cons, if_neg (by simpa using h)]

theorem prune_single_drop {a : ℤ} {now : ℤ} (h : a < now - 60000) :
    ([a] : List ℤ).dropWhile (fun t => decide (t < now - 60000)) = [] := by
  rw [List.dropWhile_cons, if_pos (by simpa using h)]
  rfl

theorem admitCheck_nowait {st pr : List ℤ} {now : ℤ}
    (hpr : st.dropWhile (fun t => decide (t < now - 60000)) = pr)
    (hlen : pr.length < MAX_RPM) :
    admitCheck st now = (0, pr) := by
  rw [admitCheck_def, hpr, if_neg (not_le.2 hlen)]

theorem admitCheck_wait {st : List ℤ} {a : ℤ} {l : List ℤ} {now : ℤ}
    (hpr : st.dropWhile (fun t => decide (t < now - 60000)) = a :: l)
    (hlen : MAX_RPM ≤ (a :: l).length) :
    admitCheck st now = (a + 60000 - now + 500, a :: l) := by
  rw [admitCheck_def, hpr, if_pos hlen]
  rfl

theorem waitForRateLimit_nowait {st pr : List ℤ} {now : ℤ}
    (hpr : st.dropWhile (fun t => decide (t < now - 60000)) = pr)
    (hlen : pr.length < MAX_RPM) :
    waitForRateLimit st now = (0, pr ++ [now]) := by
  unfold waitForRateLimit admitRecord
  rw [admitCheck_nowait hpr hlen]
  simp

theorem waitForRateLimit_wait {st : List ℤ} {a : ℤ} {l : List ℤ} {now : ℤ}
    (hpr : st.dropWhile (fun t => decide (t < now - 60000)) = a :: l)
    (hlen : MAX_RPM ≤ (a :: l).length) :
    waitForRateLimit st now = (a + 60000 - now + 500, (a :: l) ++ [a + 60500]) := by
  unfold waitForRateLimit admitRecord
  rw [admitCheck_wait hpr hlen]
  have : now + (a + 60000 - now + 500) = a + 60500 := by ring
  rw [this]

theorem admitStep_nowait {acc st pr : List ℤ} {t : ℤ}
    (hpr : st.dropWhile (fun x => decide (x < t - 60000)) = pr)
    (hlen : pr.length < MAX_RPM) :
    admitStep (acc, st) t = (acc ++ [0], pr ++ [t]) := by
  unfold admitStep
  rw [waitForRateLimit_nowait hpr hlen]

theorem admitCheck_nonneg (st : List ℤ) (now : ℤ) : 0 ≤ (admitCheck st now).1 := by
  rw [admitCheck_def]
  by_cases h : MAX_RPM ≤ (st.dropWhile (fun t => decide (t < now - 60000))).length
  · rw [if_pos h]
    match hm : st.dropWhile (fun t => decide (t < now - 60000)) with
    | [] => rw [hm] at h; simp [MAX_RPM] at h
    | a :: l =>
      have ha : ¬ a < now - 60000 := by simpa using dropWhile_head_false hm
      simp only [List.headD]
      omega
  · rw [if_neg h]

theorem admitCheck_snd (st : List ℤ) (now : ℤ) :
    (admitCheck st now).2 = st.dropWhile (fun t => decide (t < now - 60000)) := by
  rw [admitCheck_def]
  by_cases h : MAX_RPM ≤ (st.dropWhile (fun t => decide (t < now - 60000))).length
  · rw [if_pos h]
  · rw [if_neg h]

theorem admitWaits_spaced_aux :
    ∀ (ts : List ℤ) (last : ℤ) (acc : List ℤ),
      List.Chain' (fun a b => a + 60000 < b) (last :: ts) →
      (ts.foldl admitStep (acc, [last])).1 = acc ++ List.replicate ts.length 0 := by
  intro ts
  induction ts with
  | nil => intro last acc _; simp
  | cons t ts ih =>
    intro last acc hch
    rw [List.chain'_cons] at hch
    obtain ⟨hlt, hch⟩ := hch
    have hstep : admitStep (acc, [last]) t = (acc ++ [0], [t]) := by
      simpa using admitStep_nowait (prune_single_drop (by omega)) (by simp [MAX_RPM])
    rw [List.foldl_cons, hstep]
    rw [ih t (acc ++ [0]) (by simpa using hch)]
    simp [List.replicate_succ, List.append_assoc]

theorem admitWaits_spaced (ts : List ℤ)
    (hch : List.Chain' (fun a b => a + 60000 < b) ts) :
    admitWaits ts = List.replicate ts.length 0 := by
  cases ts with
  | nil => rfl
  | cons t ts =>
    unfold admitWaits
    have hstep : admitStep ([], []) t = ([0], [t]) := by
      simpa using @admitStep_nowait [] [] [] t rfl (by simp [MAX_RPM])
    rw [List.foldl_cons, hstep]
    rw [admitWaits_spaced_aux ts t [0] hch]
    simp [List.replicate_succ]

theorem governor_ninth_waits (t0 t1 t2 t3 t4 t5 t6 t7 t8 : ℤ)
    (h01 : t0 ≤ t1) (h12 : t1 ≤ t2) (h23 : t2 ≤ t3) (h34 : t3 ≤ t4)
    (h45 : t4 ≤ t5) (h56 : t5 ≤ t6) (h67 : t6 ≤ t7) (h78 : t7 ≤ t8)
    (hwin : t8 - t0 < 60000) :
    admitWaits [t0, t1, t2, t3, t4, t5, t6, t7, t8] =
      [0, 0, 0, 0, 0, 0, 0, 0, t0 + 60000 - t8 + 500] := by
  have s0 : admitStep ([], []) t0 = ([0], [t0]) := by
    simpa using @admitStep_nowait [] [] [] t0 rfl (by simp [MAX_RPM])
  have s1 : admitStep ([0], [t0]) t1 = ([0, 0], [t0, t1]) := by
    simpa using @admitStep_nowait [0] [t0] [t0] t1
      (prune_cons_keep (by omega)) (by simp [MAX_RPM])
  have s2 : admitStep ([0, 0], [t0, t1]) t2 = ([0, 0, 0], [t0, t1, t2]) := by
    simpa using @admitStep_nowait [0, 0] [t0, t1] [t0, t1] t2
      (prune_cons_keep (by omega)) (by simp [MAX_RPM])
  have s3 : admitStep ([0, 0, 0], [t0, t1, t2]) t3 = ([0, 0, 0, 0], [t0, t1, t2, t3]) := by
    simpa using @admitStep_nowait [0, 0, 0] [t0, t1, t2] [t0, t1, t2] t3
      (prune_cons_keep (by omega)) (by simp [MAX_RPM])
  have s4 : admitStep ([0, 0, 0, 0], [t0, t1, t2, t3]) t4 =
      ([0, 0, 0, 0, 0], [t0, t1, t2, t3, t4]) := by
    simpa using @admitStep_nowait [0, 0, 0, 0] [t0, t1, t2, t3] [t0, t1, t2, t3] t4
      (prune_cons_keep (by omega)) (by simp [MAX_RPM])
  have s5 : admitStep ([0, 0, 0, 0, 0], [t0, t1, t2, t3, t4]) t5 =
      ([0, 0, 0, 0, 0, 0], [t0, t1, t2, t3, t4, t5]) := by
    simpa using @admitStep_nowait [0, 0, 0, 0, 0] [t0, t1, t2, t3, t4] [t0, t1, t2, t3, t4] t5
      (prune_cons_keep (by omega)) (by simp [MAX_RPM])
  have s6 : admitStep ([0, 0, 0, 0, 0, 0], [t0, t1, t2, t3, t4, t5]) t6 =
      ([0, 0, 0, 0, 0, 0, 0], [t0, t1, t2, t3, t4, t5, t6]) := by
    simpa using @admitStep_nowait [0, 0, 0, 0, 0, 0] [t0, t1, t2, t3, t4, t5]
      [t0, t1, t2, t3, t4, t5] t6 (prune_cons_keep (by omega)) (by simp [MAX_RPM])
  have s7 : admitStep ([0, 0, 0, 0, 0, 0, 0], [t0, t1, t2, t3, t4, t5, t6]) t7 =
      ([0, 0, 0, 0, 0, 0, 0, 0], [t0, t1, t2, t3, t4, t5, t6, t7]) := by
    simpa using @admitStep_nowait [0, 0, 0, 0, 0, 0, 0] [t0, t1, t2, t3, t4, t5, t6]
      [t0, t1, t2, t3, t4, t5, t6] t7 (prune_cons_keep (by omega)) (by simp [MAX_RPM])
  have s8 : admitStep ([0, 0, 0, 0, 0, 0, 0, 0], [t0, t1, t2, t3, t4, t5, t6, t7]) t8 =
      ([0, 0, 0, 0, 0, 0, 0, 0, t0 + 60000 - t8 + 500],
        [t0, t1, t2, t3, t4, t5, t6, t7, t0 + 60500]) := by
    have hw := @waitForRateLimit_wait [t0, t1, t2, t3, t4, t5, t6, t7] t0
      [t1, t2, t3, t4, t5, t6, t7] t8 (prune_cons_keep (by omega)) (by simp [MAX_RPM])
    unfold admitStep
    rw [hw]
    simp
  simp only [admitWaits, List.foldl_cons, s0, s1, s2, s3, s4, s5, s6, s7, s8, List.foldl_nil]

/-- C4: with nine admissions requested inside a window shorter than 60
seconds, the first eight are admitted without waiting and the ninth
suspends for the time until the oldest retained timestamp exits the
window plus the fixed 500 ms margin, a strictly positive duration; any
run of at most `MAX_RPM` admissions spaced more than 60 seconds apart
never waits; and the wait computed by `waitForRateLimit` is never
negative (the admit operation always returns). -/
theorem rate_governor_cap (t0 t1 t2 t3 t4 t5 t6 t7 t8 : ℤ)
    (h01 : t0 ≤ t1) (h12 : t1 ≤ t2) (h23 : t2 ≤ t3) (h34 : t3 ≤ t4)
    (h45 : t4 ≤ t5) (h56 : t5 ≤ t6) (h67 : t6 ≤ t7) (h78 : t7 ≤ t8)
    (hwin : t8 - t0 < 60000) :
    (admitWaits [t0, t1, t2, t3, t4, t5, t6, t7, t8] =
        [0, 0, 0, 0, 0, 0, 0, 0, t0 + 60000 - t8 + 500] ∧
      0 < t0 + 60000 - t8 + 500) ∧
    (∀ ts : List ℤ, List.Chain' (fun a b => a + 60000 < b) ts → ts.length ≤ MAX_RPM →
      admitWaits ts = List.replicate ts.length 0) ∧
    (∀ (st : List ℤ) (now : ℤ), 0 ≤ (waitForRateLimit st now).1) :=
  ⟨⟨governor_ninth_waits t0 t1 t2 t3 t4 t5 t6 t7 t8 h01 h12 h23 h34 h45 h56 h67 h78 hwin,
      by omega⟩,
    fun ts hch _ => admitWaits_spaced ts hch,
    fun st now => admitCheck_nonneg st now⟩

theorem rate_governor_cap_witness :
    (admitWaits [0, 100, 200, 300, 400, 500, 600, 700, 800] =
        [0, 0, 0, 0, 0, 0, 0, 0, (0 : ℤ) + 60000 - 800 + 500] ∧
      (0 : ℤ) < 0 + 60000 - 800 + 500) ∧
    admitWaits [0, 70000] = List.replicate ([0, 70000] : List ℤ).length 0 ∧
    (0 : ℤ) ≤ (waitForRateLimit [] 0).1 := by
  have h := rate_governor_cap 0 100 200 300 400 500 600 700 800
    (by norm_num) (by norm_num) (by norm_num) (by norm_num) (by norm_num)
    (by norm_num) (by norm_num) (by norm_num) (by norm_num)
  refine ⟨h.1, h.2.1 [0, 70000] ?_ (by norm_num [MAX_RPM]), h.2.2 [] 0⟩
  exact List.chain'_cons.2 ⟨by norm_num, List.chain'_singleton _⟩

theorem seqCounts_le_cap_aux :
    ∀ (gaps : List ℕ) (st : List ℤ) (now : ℤ),
      (∀ x ∈ st, x ≤ now) →
      (∀ t : ℤ, now ≤ t →
        (st.dropWhile (fun x => decide (x < t - 60000))).length ≤ MAX_RPM) →
      ∀ c ∈ seqCounts st now gaps, c ≤ MAX_RPM := by
  intro gaps
  induction gaps with
  | nil => intro st now _ _ c hc; simp [seqCounts] at hc
  | cons g gs ih =>
    intro st now hle hwin c hc
    rw [seqCounts] at hc
    have hnowt : now ≤ now + (g : ℤ) := by omega
    rcases List.mem_cons.1 hc with rfl | hc
    · rw [admitCheck_snd]
      exact hwin (now + (g : ℤ)) hnowt
    · by_cases hif : MAX_RPM ≤
        (st.dropWhile (fun x => decide (x < now + (g : ℤ) - 60000))).length
      · -- at cap: the call waits, pushing a timestamp 60500 ms past the
        -- retained oldest one, which is pruned out at any later decision
        have hle8 := hwin (now + (g : ℤ)) hnowt
        match hm : st.dropWhile (fun x => decide (x < now + (g : ℤ) - 60000)) with
        | [] => rw [hm] at hif; simp [MAX_RPM] at hif
        | a :: l =>
          rw [hm] at hif hle8
          have ha : ¬ a < now + (g : ℤ) - 60000 := by
            simpa using dropWhile_head_false hm
          have hck := admitCheck_wait hm hif
          rw [hck] at hc
          refine ih _ _ ?_ ?_ c hc
          · intro x hx
            simp only [admitRecord] at hx
            rcases List.mem_append.1 hx with hx | hx
            · have hxst : x ∈ st := (List.dropWhile_sublist _).subset (hm ▸ hx)
              have := hle x hxst
              omega
            · rw [List.mem_singleton.1 hx]
          · intro t2 ht2
            simp only [admitRecord]
            have hdrop : ((a :: l) ++
                  [now + (g : ℤ) + (a + 60000 - (now + (g : ℤ)) + 500)]).dropWhile
                  (fun x => decide (x < t2 - 60000)) =
                (l ++ [now + (g : ℤ) + (a + 60000 - (now + (g : ℤ)) + 500)]).dropWhile
                  (fun x => decide (x < t2 - 60000)) := by
              rw [List.cons_append, List.dropWhile_cons, if_pos]
              simp only [decide_eq_true_eq]
              omega
            rw [hdrop]
            have hlen2 := ((l ++
                [now + (g : ℤ) + (a + 60000 - (now + (g : ℤ)) + 500)]).dropWhile_sublist
              (fun x : ℤ => decide (x < t2 - 60000))).length_le
            simp only [List.length_append, List.length_cons, List.length_singleton,
              List.length_nil] at hlen2 hle8 ⊢
            omega
      · -- under cap: no wait, the new state has at most MAX_RPM entries
        have hck := admitCheck_nowait rfl (not_le.1 hif)
        rw [hck] at hc
        refine ih _ _ ?_ ?_ c hc
        · intro x hx
          simp only [admitRecord] at hx
          rcases List.mem_append.1 hx with hx | hx
          · have hxst : x ∈ st := (List.dropWhile_sublist _).subset hx
            have := hle x hxst
            omega
          · rw [List.mem_singleton.1 hx]
        · intro t2 ht2
          simp only [admitRecord]
          have hlen2 := ((st.dropWhile (fun x => decide (x < now + (g : ℤ) - 60000)) ++
              [now + (g : ℤ) + 0]).dropWhile_sublist
            (fun x : ℤ => decide (x < t2 - 60000))).length_le
          simp only [List.length_append, List.length_singleton, List.length_cons,
            List.length_nil] at hlen2
          have hlt := not_le.1 hif
          simp only [MAX_RPM] at hlt ⊢
          omega

/-- C5 counterexample: the check-and-record pair of `waitForRateLimit` is
not atomic across its suspension point. Starting from the reachable state
left by eight admissions at times 0..7000 (first conjunct), two concurrent
admit calls requested at 7100 and 7200 each run their `admitCheck` phase
before either records: both see the full window of 8 timestamps and
compute waits that make both resume at time 60500 (conjuncts two to
five), and each then records its timestamp. A further admission checking
at 60600 prunes only the expired oldest timestamp and finds 9 timestamps
inside the trailing 60-second window at its decision point, exceeding the
cap `MAX_RPM = 8`. -/
theorem rate_governor_interleaving_cex :
    (([0, 1000, 2000, 3000, 4000, 5000, 6000, 7000] : List ℤ).foldl admitStep ([], [])).2 =
      [0, 1000, 2000, 3000, 4000, 5000, 6000, 7000] ∧
    admitCheck [0, 1000, 2000, 3000, 4000, 5000, 6000, 7000] 7100 =
      (53400, [0, 1000, 2000, 3000, 4000, 5000, 6000, 7000]) ∧
    admitCheck [0, 1000, 2000, 3000, 4000, 5000, 6000, 7000] 7200 =
      (53300, [0, 1000, 2000, 3000, 4000, 5000, 6000, 7000]) ∧
    (7100 : ℤ) + 53400 = 60500 ∧ (7200 : ℤ) + 53300 = 60500 ∧
    (admitCheck (admitRecord (admitRecord
        [0, 1000, 2000, 3000, 4000, 5000, 6000, 7000] 60500) 60500) 60600).2.length = 9 ∧
    MAX_RPM < 9 := by decide

/-- C5 (amended): for strictly sequential admissions (each
`waitForRateLimit` call completing before the next is requested), the
window occupancy observed at every decision point never exceeds
`MAX_RPM`; the governor waits instead of exceeding the cap. The
concurrent-atomicity part of the claim fails, see the counterexample. -/
theorem rate_governor_sequential_invariant (gaps : List ℕ) :
    ∀ c ∈ seqCounts [] 0 gaps, c ≤ MAX_RPM := by
  refine seqCounts_le_cap_aux gaps [] 0 (by intro x hx; simp at hx) ?_
  intro t ht
  simp [MAX_RPM]

theorem rate_governor_sequential_invariant_witness :
    8 ∈ seqCounts [] 0 [1, 1, 1, 1, 1, 1, 1, 1, 1] ∧ 8 ≤ MAX_RPM :=
  ⟨by decide, rate_governor_sequential_invariant [1, 1, 1, 1, 1, 1, 1, 1, 1] 8 (by decide)⟩

/-- C2: the normalizer is total and pure; every normalized sub-score and
the aggregate lie in [0, 10] and carry at most one decimal digit; a
missing field becomes 0; and the aggregate equals the arithmetic mean of
the six normalized sub-scores, itself clamped and rounded the same way. -/
theorem normalizer_bounds (raw : RawEval) (level : String) :
    (0 ≤ (evaluateResult raw level).pronunciation ∧
      (evaluateResult raw level).pronunciation ≤ 10 ∧
      ∃ k : ℤ, (evaluateResult raw level).pronunciation = (k : ℚ) / 10) ∧
    (0 ≤ (evaluateResult raw level).fluency ∧
      (evaluateResult raw level).fluency ≤ 10 ∧
      ∃ k : ℤ, (evaluateResult raw level).fluency = (k : ℚ) / 10) ∧
    (0 ≤ (evaluateResult raw level).intonation ∧
      (evaluateResult raw level).intonation ≤ 10 ∧
      ∃ k : ℤ, (evaluateResult raw level).intonation = (k : ℚ) / 10) ∧
    (0 ≤ (evaluateResult raw level).vocabulary ∧
      (evaluateResult raw level).vocabulary ≤ 10 ∧
      ∃ k : ℤ, (evaluateResult raw level).vocabulary = (k : ℚ) / 10) ∧
    (0 ≤ (evaluateResult raw level).grammar ∧
      (evaluateResult raw level).grammar ≤ 10 ∧
      ∃ k : ℤ, (evaluateResult raw level).grammar = (k : ℚ) / 10) ∧
    (0 ≤ (evaluateResult raw level).taskFulfillment ∧
      (evaluateResult raw level).taskFulfillment ≤ 10 ∧
      ∃ k : ℤ, (evaluateResult raw level).taskFulfillment = (k : ℚ) / 10) ∧
    (0 ≤ (evaluateResult raw level).score ∧
      (evaluateResult raw level).score ≤ 10 ∧
      ∃ k : ℤ, (evaluateResult raw level).score = (k : ℚ) / 10) ∧
    (evaluateResult raw level).score =
      min 10 (max 0 ((round ((((evaluateResult raw level).pronunciation +
          (evaluateResult raw level).fluency + (evaluateResult raw level).intonation +
          (evaluateResult raw level).vocabulary + (evaluateResult raw level).grammar +
          (evaluateResult raw level).taskFulfillment) / 6) * 10) : ℚ) / 10)) ∧
    normalize none = 0 :=
  ⟨⟨normalize_nonneg _, normalize_le_ten _, normalize_one_decimal _⟩,
    ⟨normalize_nonneg _, normalize_le_ten _, normalize_one_decimal _⟩,
    ⟨normalize_nonneg _, normalize_le_ten _, normalize_one_decimal _⟩,
    ⟨normalize_nonneg _, normalize_le_ten _, normalize_one_decimal _⟩,
    ⟨normalize_nonneg _, normalize_le_ten _, normalize_one_decimal _⟩,
    ⟨normalize_nonneg _, normalize_le_ten _, normalize_one_decimal _⟩,
    ⟨normalize_nonneg _, normalize_le_ten _, normalize_one_decimal _⟩,
    rfl, normalize_none⟩

/-- C10: `evaluatePresentation` always returns `mistakes = []`,
`keyVocabulary = []`, and `perceivedLevel` equal to the level argument,
because these explicit fields come after the spread of the raw response
and therefore override whatever the remote response contained. -/
theorem evaluate_overrides (raw : RawEval) (level : String) :
    (evaluateResult raw level).mistakes = [] ∧
    (evaluateResult raw level).keyVocabulary = [] ∧
    (evaluateResult raw level).perceivedLevel = level :=
  ⟨rfl, rfl, rfl⟩

theorem jsTrim_empty : jsTrim "" = "" := rfl

theorem getApiKey_eq (userKey envKey : Option String) :
    getApiKey userKey envKey =
      if jsTrim (userKey.getD "") ≠ "" then Except.ok (jsTrim (userKey.getD ""))
      else if jsTrim (envKey.getD "") ≠ "" then Except.ok (jsTrim (envKey.getD ""))
      else Except.error missingKeyMsg := by
  have key : ∀ s : String, (jsTruthy s && jsTruthy (jsTrim s)) = true ↔ jsTrim s ≠ "" := by
    intro s
    simp only [jsTruthy, Bool.and_eq_true, decide_eq_true_eq]
    constructor
    · rintro ⟨-, h⟩; exact h
    · intro h; exact ⟨fun hs => h (by rw [hs]; rfl), h⟩
  cases userKey with
  | some uk =>
    simp only [getApiKey, Option.getD_some]
    by_cases h : jsTrim uk = ""
    · rw [if_neg (fun hc => (key uk).1 hc h), if_neg (by simpa using h)]
      cases envKey with
      | some ek =>
        simp only [Option.getD_some]
        by_cases he : jsTrim ek = ""
        · rw [if_neg (fun hc => (key ek).1 hc he), if_neg (by simpa using he)]
        · rw [if_pos ((key ek).2 he), if_pos he]
      | none =>
        simp only [Option.getD_none]
        rw [if_neg (by simp [jsTrim_empty])]
    · rw [if_pos ((key uk).2 h), if_pos h]
  | none =>
    simp only [getApiKey, Option.getD_none]
    rw [if_neg (by simp [jsTrim_empty])]
    cases envKey with
    | some ek =>
      simp only [Option.getD_some]
      by_cases he : jsTrim ek = ""
      · rw [if_neg (fun hc => (key ek).1 hc he), if_neg (by simpa using he)]
      · rw [if_pos ((key ek).2 he), if_pos he]
    | none =>
      simp only [Option.getD_none]
      rw [if_neg (by simp [jsTrim_empty])]

/-- C7: the credential resolver returns the trimmed local-store value
whenever its trim is nonempty, otherwise the trimmed environment value
whenever its trim is nonempty, and fails with the missing-credential
message exactly when both trims are empty; in particular a whitespace
local value falls through to the environment value, and a nonblank local
value wins regardless of the environment. -/
theorem credential_priority (userKey envKey : Option String) :
    getApiKey userKey envKey =
      (if jsTrim (userKey.getD "") ≠ "" then Except.ok (jsTrim (userKey.getD ""))
       else if jsTrim (envKey.getD "") ≠ "" then Except.ok (jsTrim (envKey.getD ""))
       else Except.error missingKeyMsg) ∧
    getApiKey (some "   ") (some "sk-env") = Except.ok "sk-env" ∧
    getApiKey (some "sk-user") envKey = Except.ok "sk-user" := by
  refine ⟨getApiKey_eq userKey envKey, rfl, ?_⟩
  rw [getApiKey_eq]
  simp only [Option.getD_some]
  rw [if_pos (by decide)]
  rfl

theorem toInt16s_length : ∀ l : List ℕ, 2 ∣ l.length → (toInt16s l).length = l.length / 2
  | [], _ => rfl
  | [_], h => by simp at h
  | lo :: hi :: rest, h => by
    have hr : 2 ∣ rest.length := by simpa using h
    simp only [toInt16s, List.length_cons, toInt16s_length rest hr]
    omega

theorem bytesToInt16_bounds {lo hi : ℕ} (hlo : lo < 256) (hhi : hi < 256) :
    -32768 ≤ bytesToInt16 lo hi ∧ bytesToInt16 lo hi ≤ 32767 := by
  unfold bytesToInt16
  split <;> omega

theorem toInt16s_bounds : ∀ l : List ℕ, (∀ b ∈ l, b < 256) →
    ∀ s ∈ toInt16s l, -32768 ≤ s ∧ s ≤ 32767
  | [], _, s, hs => by simp [toInt16s] at hs
  | [_], _, s, hs => by simp [toInt16s] at hs
  | lo :: hi :: rest, hb, s, hs => by
    rcases List.mem_cons.1 hs with rfl | hs
    · exact bytesToInt16_bounds (hb lo (by simp)) (hb hi (by simp))
    · exact toInt16s_bounds rest (fun b hbm => hb b (by simp [hbm])) s hs

theorem int16ToBytes_bytesToInt16 {lo hi : ℕ} (hlo : lo < 256) (hhi : hi < 256) :
    int16ToBytes (bytesToInt16 lo hi) = [lo, hi] := by
  unfold int16ToBytes bytesToInt16
  split
  · refine List.cons_eq_cons.2 ⟨?_, List.cons_eq_cons.2 ⟨?_, rfl⟩⟩ <;> omega
  · refine List.cons_eq_cons.2 ⟨?_, List.cons_eq_cons.2 ⟨?_, rfl⟩⟩ <;> omega

theorem flatten_int16ToBytes_toInt16s : ∀ l : List ℕ, 2 ∣ l.length →
    (∀ b ∈ l, b < 256) → ((toInt16s l).map int16ToBytes).flatten = l
  | [], _, _ => rfl
  | [_], h, _ => by simp at h
  | lo :: hi :: rest, h, hb => by
    have hr : 2 ∣ rest.length := by simpa using h
    simp only [toInt16s, List.map_cons, List.flatten_cons,
      int16ToBytes_bytesToInt16 (hb lo (by simp)) (hb hi (by simp)),
      flatten_int16ToBytes_toInt16s rest hr (fun b hbm => hb b (by simp [hbm]))]
    rfl

theorem encodeSample_div (s : ℤ) (h1 : -32768 ≤ s) (h2 : s ≤ 32767) :
    encodeSample ((s : ℚ) / 32768) = s := by
  unfold encodeSample
  have hmul : ((s : ℚ) / 32768) * 32768 = (s : ℚ) := by
    field_simp
  rw [hmul, round_intCast, min_eq_right (by exact_mod_cast h2),
    max_eq_right (by exact_mod_cast h1)]

theorem interleave_decode (data : List ℕ) (nc : ℕ) (hnc : nc ≠ 0)
    (hdvd : nc ∣ (toInt16s data).length) :
    interleave (decodeAudioData data nc) nc ((toInt16s data).length / nc) =
      (toInt16s data).map (fun s => ((s : ℤ) : ℚ) / 32768) := by
  apply List.ext_getElem
  · simp only [interleave, List.length_ofFn, List.length_map]
    exact Nat.div_mul_cancel hdvd
  · intro j hj hj2
    simp only [interleave, List.length_ofFn] at hj
    have hjlt : j < (toInt16s data).length := by
      rw [← Nat.div_mul_cancel hdvd]; exact hj
    have hmod : j % nc < nc := Nat.mod_lt _ (Nat.pos_of_ne_zero hnc)
    have hdivlt : j / nc < (toInt16s data).length / nc := by
      rw [Nat.div_lt_iff_lt_mul (Nat.pos_of_ne_zero hnc)]
      exact hj
    have hidx : j / nc * nc + j % nc = j := by
      rw [Nat.mul_comm]
      exact Nat.div_add_mod j nc
    have houter : (decodeAudioData data nc).getD (j % nc) [] =
        List.ofFn (fun i : Fin ((toInt16s data).length / nc) =>
          (((toInt16s data).getD ((i : ℕ) * nc + (j % nc)) 0 : ℤ) : ℚ) / 32768) := by
      rw [List.getD_eq_getElem (decodeAudioData data nc) []
        (by simpa [decodeAudioData, List.length_ofFn] using hmod)]
      simp only [decodeAudioData, List.getElem_ofFn, Fin.val_mk]
    have hinner : (List.ofFn (fun i : Fin ((toInt16s data).length / nc) =>
        (((toInt16s data).getD ((i : ℕ) * nc + (j % nc)) 0 : ℤ) : ℚ) / 32768)).getD
          (j / nc) 0 =
        (((toInt16s data).getD (j / nc * nc + (j % nc)) 0 : ℤ) : ℚ) / 32768 := by
      rw [List.getD_eq_getElem _ 0 (by simpa [List.length_ofFn] using hdivlt)]
      simp only [List.getElem_ofFn, Fin.val_mk]
    simp only [interleave]
    rw [List.getElem_ofFn]
    simp only [Fin.val_mk]
    rw [houter, hinner, hidx, List.getElem_map,
      List.getD_eq_getElem (toInt16s data) 0 hjlt]

/-- C6: decoding an even-length little-endian 16-bit PCM byte buffer with
a channel count dividing the sample count yields `numChannels` channels
of `byteLength / 2 / numChannels` samples, every sample lying in
[-1, 1]; and re-encoding (scale by 32768, round, clamp, serialize)
reproduces the original bytes exactly. -/
theorem pcm_decode_roundtrip (data : List ℕ) (nc : ℕ)
    (hb : ∀ b ∈ data, b < 256) (h2 : 2 ∣ data.length) (hnc : nc ≠ 0)
    (hdvd : nc ∣ (data.length / 2)) :
    (decodeAudioData data nc).length = nc ∧
    (∀ ch ∈ decodeAudioData data nc, ch.length = data.length / 2 / nc) ∧
    (∀ ch ∈ decodeAudioData data nc, ∀ x ∈ ch, -1 ≤ x ∧ x ≤ 1) ∧
    encodePCM (decodeAudioData data nc) nc (data.length / 2 / nc) = data := by
  have hlen : (toInt16s data).length = data.length / 2 := toInt16s_length data h2
  have hdvd2 : nc ∣ (toInt16s data).length := by rw [hlen]; exact hdvd
  refine ⟨by simp [decodeAudioData, List.length_ofFn], ?_, ?_, ?_⟩
  · intro ch hch
    rw [decodeAudioData, List.mem_ofFn] at hch
    obtain ⟨c, rfl⟩ := hch
    simp [List.length_ofFn, hlen]
  · intro ch hch x hx
    rw [decodeAudioData, List.mem_ofFn] at hch
    obtain ⟨c, rfl⟩ := hch
    rw [List.mem_ofFn] at hx
    obtain ⟨i, rfl⟩ := hx
    have hsb : -32768 ≤ (toInt16s data).getD ((i : ℕ) * nc + (c : ℕ)) 0 ∧
        (toInt16s data).getD ((i : ℕ) * nc + (c : ℕ)) 0 ≤ 32767 := by
      by_cases hin : (i : ℕ) * nc + (c : ℕ) < (toInt16s data).length
      · rw [List.getD_eq_getElem _ _ hin]
        exact toInt16s_bounds data hb _ (List.getElem_mem hin)
      · rw [List.getD_eq_default _ _ (le_of_not_lt hin)]
        norm_num
    constructor
    · rw [le_div_iff (by norm_num : (0 : ℚ) < 32768)]
      calc ((-1 : ℚ)) * 32768 = ((-32768 : ℤ) : ℚ) := by norm_num
      _ ≤ _ := by exact_mod_cast hsb.1
    · rw [div_le_iff (by norm_num : (0 : ℚ) < 32768)]
      calc (((toInt16s data).getD ((i : ℕ) * nc + (c : ℕ)) 0 : ℤ) : ℚ)
          ≤ ((32767 : ℤ) : ℚ) := by exact_mod_cast hsb.2
      _ ≤ 1 * 32768 := by norm_num
  · rw [encodePCM, ← hlen, interleave_decode data nc hnc hdvd2, List.map_map]
    have hcongr : ((toInt16s data).map
        ((fun x => int16ToBytes (encodeSample x)) ∘ fun s => ((s : ℤ) : ℚ) / 32768)) =
        (toInt16s data).map int16ToBytes := by
      apply List.map_congr_left
      intro s hs
      have hbound := toInt16s_bounds data hb s hs
      simp only [Function.comp_apply]
      rw [encodeSample_div s hbound.1 hbound.2]
    rw [hcongr]
    exact flatten_int16ToBytes_toInt16s data h2 hb

theorem pcm_decode_roundtrip_witness :
    (decodeAudioData [1, 128, 254, 127] 2).length = 2 ∧
    encodePCM (decodeAudioData [1, 128, 254, 127] 2) 2 1 = [1, 128, 254, 127] := by
  have h := pcm_decode_roundtrip [1, 128, 254, 127] 2
    (by decide) (by decide) (by decide) (by decide)
  exact ⟨h.1, h.2.2.2⟩

theorem countAttempts_nil : countAttempts [] = 0 := rfl

theorem countAttempts_cons_attempt (m : String) (l : List Ev) :
    countAttempts (.attempt m :: l) = countAttempts l + 1 := by
  simp [countAttempts, List.countP_cons]

theorem countAttempts_cons_sleep (ms : ℕ) (l : List Ev) :
    countAttempts (.sleep ms :: l) = countAttempts l := by
  simp [countAttempts, List.countP_cons]

theorem countAttempts_append (l1 l2 : List Ev) :
    countAttempts (l1 ++ l2) = countAttempts l1 + countAttempts l2 := by
  simp [countAttempts, List.countP_append]

theorem runAttempts_count_le {T : Type} (fn : ℕ → String → Except JsError T)
    (model : String) (il : Bool) :
    ∀ (r d n : ℕ), countAttempts (runAttempts fn model il r d n).1 ≤ r := by
  intro r
  induction r with
  | zero => intro d n; simp [runAttempts, countAttempts_nil]
  | succ r ih =>
    intro d n
    simp only [runAttempts]
    split
    · simp [countAttempts_cons_attempt, countAttempts_nil]
    · split_ifs with h1 h2 h3 h4
      · simp [countAttempts_cons_attempt, countAttempts_nil]
      · simp only [countAttempts_cons_attempt, countAttempts_cons_sleep]
        have := ih (d * 2) (n + 1)
        omega
      · simp only [countAttempts_cons_attempt, countAttempts_cons_sleep]
        have := ih (d * 2) (n + 1)
        omega
      · simp [countAttempts_cons_attempt, countAttempts_nil]
      · simp [countAttempts_cons_attempt, countAttempts_nil]

theorem runChain_count_le {T : Type} (fn : ℕ → String → Except JsError T) (mr : ℕ) :
    ∀ (chain : List String) (n : ℕ),
      countAttempts (runChain fn chain mr n).1 ≤ mr * chain.length := by
  intro chain
  induction chain with
  | nil => intro n; simp [runChain, countAttempts_nil]
  | cons m rest ih =>
    intro n
    simp only [runChain]
    cases hs : (runAttempts fn m rest.isEmpty mr 3000 n).2.2 with
    | success v =>
      simp only []
      calc countAttempts (runAttempts fn m rest.isEmpty mr 3000 n).1
          ≤ mr := runAttempts_count_le fn m rest.isEmpty mr 3000 n
        _ ≤ mr * (m :: rest).length := by
            simp only [List.length_cons]
            exact Nat.le_mul_of_pos_right mr (Nat.succ_pos _)
    | thrown e =>
      simp only []
      calc countAttempts (runAttempts fn m rest.isEmpty mr 3000 n).1
          ≤ mr := runAttempts_count_le fn m rest.isEmpty mr 3000 n
        _ ≤ mr * (m :: rest).length := by
            simp only [List.length_cons]
            exact Nat.le_mul_of_pos_right mr (Nat.succ_pos _)
    | advance =>
      simp only []
      rw [countAttempts_append]
      calc countAttempts (runAttempts fn m rest.isEmpty mr 3000 n).1 +
            countAttempts (runChain fn rest mr
              (runAttempts fn m rest.isEmpty mr 3000 n).2.1).1
          ≤ mr + mr * rest.length :=
            Nat.add_le_add (runAttempts_count_le fn m rest.isEmpty mr 3000 n) (ih _)
        _ = mr * (m :: rest).length := by
            simp only [List.length_cons]
            ring

/-- C9: every orchestration run terminates with a result (the run
function is total) and the total number of attempts it performs is
bounded by `maxRetries` times the chain length. -/
theorem orchestrator_attempt_bound {T : Type} (fn : ℕ → String → Except JsError T)
    (chain : List String) (mr : ℕ) :
    countAttempts (runChain fn chain mr 0).1 ≤ mr * chain.length :=
  runChain_count_le fn mr chain 0

/-- C3: with a chain [A, B] where A always fails with a not-found
classified error and B always succeeds, the run returns the result of B
after exactly one attempt against A (the trace shows one attempt on A,
no sleeps, then one attempt on B): the not-found classification abandons
the remaining retries for A immediately. -/
theorem notfound_skips_model {T : Type} (A B : String) (v : T) (e : JsError)
    (fn : ℕ → String → Except JsError T) (mr : ℕ) (hmr : mr ≠ 0)
    (hA : ∀ n, fn n A = .error e) (hnf : isNotFound e = true)
    (hB : ∀ n, fn n B = .ok v) :
    runChain fn [A, B] mr 0 = ([.attempt A, .attempt B], 2, .ok v) := by
  obtain ⟨r, rfl⟩ := Nat.exists_eq_succ_of_ne_zero hmr
  simp [runChain, runAttempts, hA, hB, hnf]

theorem notfound_skips_model_witness :
    runChain (fun _ m => if m = "modelA" then (Except.error ⟨some 404, ""⟩ : Except JsError ℕ)
        else Except.ok 7) ["modelA", "modelB"] 2 0 =
      ([.attempt "modelA", .attempt "modelB"], 2, .ok 7) := by
  refine notfound_skips_model "modelA" "modelB" 7 ⟨some 404, ""⟩ _ 2 (by norm_num)
    (fun n => by rw [if_pos rfl]) (by decide)
    (fun n => by rw [if_neg (by decide)])

/-- C8: with chain [model1, model2] and maxRetries = 2, where every
attempt on model1 fails with a rate-limit classified error (and no other
classification) and model2 succeeds on its first attempt, the run makes
exactly 3 attempts: two on model1 separated by the doubled backoff
penalty (2 × 3000 ms = 6000 ms), then one on model2, returning the
result of model2. -/
theorem rate_limit_retry_then_advance {T : Type} (m1 m2 : String) (v : T) (e : JsError)
    (fn : ℕ → String → Except JsError T)
    (hrl : isRateLimit e = true) (hnf : isNotFound e = false) (hsv : isServerError e = false)
    (h1 : ∀ n, fn n m1 = .error e) (h2 : ∀ n, fn n m2 = .ok v) :
    runChain fn [m1, m2] 2 0 =
      ([.attempt m1, .sleep 6000, .attempt m1, .attempt m2], 3, .ok v) := by
  simp [runChain, runAttempts, h1, h2, hrl, hnf, hsv]

theorem rate_limit_retry_then_advance_witness :
    runChain (fun _ m => if m = "model1" then (Except.error ⟨some 429, "quota"⟩ :
        Except JsError ℕ) else Except.ok 5) ["model1", "model2"] 2 0 =
      ([.attempt "model1", .sleep 6000, .attempt "model1", .attempt "model2"], 3, .ok 5) := by
  refine rate_limit_retry_then_advance "model1" "model2" 5 ⟨some 429, "quota"⟩ _
    (by decide) (by decide) (by decide)
    (fun n => by rw [if_pos rfl]) (fun n => by rw [if_neg (by decide)])

theorem runAttempts_fail_notlast {T : Type} (fn : ℕ → String → Except JsError T)
    (m : String) (hfail : ∀ n, ∃ e, fn n m = .error e) :
    ∀ (r d n : ℕ), (runAttempts fn m false r d n).2.2 = ModelStep.advance := by
  intro r
  induction r with
  | zero => intro d n; rfl
  | succ r ih =>
    intro d n
    obtain ⟨e, he⟩ := hfail n
    simp only [runAttempts, he]
    split_ifs with h1 h2 h3 h4
    · rfl
    · exact ih (d * 2) (n + 1)
    · exact ih (d * 2) (n + 1)
    · rfl
    · simp at h4

theorem runAttempts_fail_last_thrown {T : Type} (fn : ℕ → String → Except JsError T)
    (m : String) (hfail : ∀ n, ∃ e, fn n m = .error e)
    (hnonf : ∀ n e, fn n m = .error e → isNotFound e = false) :
    ∀ (r : ℕ), r ≠ 0 → ∀ (d n : ℕ),
      ((runAttempts fn m true r d n).2.2).isThrown = true := by
  intro r
  induction r with
  | zero => intro h; exact absurd rfl h
  | succ r ih =>
    intro _ d n
    obtain ⟨e, he⟩ := hfail n
    have hnf := hnonf n e he
    simp only [runAttempts, he]
    split_ifs with h1 h2 h3 h4
    · rw [hnf] at h1; exact absurd h1 (by simp)
    · exact ih (Nat.pos_iff_ne_zero.1 h2.2) (d * 2) (n + 1)
    · exact ih (Nat.pos_iff_ne_zero.1 h3.2) (d * 2) (n + 1)
    · simp at h4
    · rfl

theorem runAttempts_allnf_advance {T : Type} (fn : ℕ → String → Except JsError T)
    (m : String) (il : Bool)
    (hnf : ∀ n e, fn n m = .error e → isNotFound e = true)
    (hfail : ∀ n, ∃ e, fn n m = .error e) :
    ∀ (r d n : ℕ), (runAttempts fn m il r d n).2.2 = ModelStep.advance := by
  intro r
  cases r with
  | zero => intro d n; rfl
  | succ r =>
    intro d n
    obtain ⟨e, he⟩ := hfail n
    simp only [runAttempts, he]
    rw [if_pos (hnf n e he)]

theorem runChain_fail_raw {T : Type} (fn : ℕ → String → Except JsError T)
    (hfail : ∀ n m, ∃ e, fn n m = .error e)
    (hnonf : ∀ n m e, fn n m = .error e → isNotFound e = false) (mr : ℕ) (hmr : mr ≠ 0) :
    ∀ (chain : List String), chain ≠ [] → ∀ n : ℕ,
      ((runChain fn chain mr n).2.2).isRaw = true := by
  intro chain
  induction chain with
  | nil => intro h; exact absurd rfl h
  | cons m rest ih =>
    intro _ n
    cases rest with
    | nil =>
      have ht := runAttempts_fail_last_thrown fn m (fun k => hfail k m)
        (fun k e => hnonf k m e) mr hmr 3000 n
      simp only [runChain, List.isEmpty_nil]
      cases hs : (runAttempts fn m true mr 3000 n).2.2 with
      | success v => rw [hs] at ht; simp [ModelStep.isThrown] at ht
      | advance => rw [hs] at ht; simp [ModelStep.isThrown] at ht
      | thrown e => rfl
    | cons m2 rest2 =>
      have ha := runAttempts_fail_notlast fn m (fun k => hfail k m) mr 3000 n
      simp only [runChain, List.isEmpty_cons]
      rw [ha]
      exact ih (List.cons_ne_nil m2 rest2) ((runAttempts fn m false mr 3000 n).2.1)

theorem runChain_allnf_exhausted {T : Type} (fn : ℕ → String → Except JsError T)
    (hfail : ∀ n m, ∃ e, fn n m = .error e)
    (hnf : ∀ n m e, fn n m = .error e → isNotFound e = true) (mr : ℕ) :
    ∀ (chain : List String) (n : ℕ),
      (runChain fn chain mr n).2.2 = FbOutcome.exhausted exhaustedMsg := by
  intro chain
  induction chain with
  | nil => intro n; rfl
  | cons m rest ih =>
    intro n
    have ha := runAttempts_allnf_advance fn m rest.isEmpty
      (fun k e => hnf k m e) (fun k => hfail k m) mr 3000 n
    simp only [runChain]
    rw [ha]
    exact ih _

/-- C1 counterexample: with the configured two-model chain, maxRetries = 2
and a unit of work that always fails with HTTP 429 (body mentioning
quota), the exhausted run throws the raw last provider error to the
caller (the `throw err` at the end of the last model's retry loop), not
the synthesized user-facing exhausted error. -/
theorem exhausted_raw_error_cex :
    (callWithModelFallback (fun _ _ => (Except.error ⟨some 429, "quota"⟩ :
        Except JsError ℕ)) 2).2.2 = FbOutcome.raw ⟨some 429, "quota"⟩ ∧
    (callWithModelFallback (fun _ _ => (Except.error ⟨some 429, "quota"⟩ :
        Except JsError ℕ)) 2).2.2 ≠ FbOutcome.exhausted exhaustedMsg :=
  ⟨by decide, by decide⟩

/-- C1 (amended): when every attempt of every model fails and the chain
is exhausted, the failure surfaced to the caller depends on the
classification of the errors: if no error is classified not-found, the
raw last error is rethrown directly; the synthesized user-facing
exhausted error is thrown only when the per-model loops exit via the
not-found break (for example when every error is classified not-found). -/
theorem exhausted_behaviour {T : Type} (fn : ℕ → String → Except JsError T)
    (chain : List String) (mr : ℕ)
    (hfail : ∀ n m, ∃ e, fn n m = .error e) (hchain : chain ≠ []) (hmr : mr ≠ 0) :
    ((∀ n m e, fn n m = .error e → isNotFound e = false) →
      ((runChain fn chain mr 0).2.2).isRaw = true) ∧
    ((∀ n m e, fn n m = .error e → isNotFound e = true) →
      (runChain fn chain mr 0).2.2 = FbOutcome.exhausted exhaustedMsg) :=
  ⟨fun hnonf => runChain_fail_raw fn hfail hnonf mr hmr chain hchain 0,
    fun hnf => runChain_allnf_exhausted fn hfail hnf mr chain 0⟩

theorem exhausted_behaviour_witness :
    ((runChain alwaysQuota ["m1", "m2"] 2 0).2.2).isRaw = true ∧
    (runChain alwaysNotFound ["m1", "m2"] 2 0).2.2 = FbOutcome.exhausted exhaustedMsg := by
  constructor
  · exact (exhausted_behaviour alwaysQuota ["m1", "m2"] 2
      (fun n m => ⟨⟨some 429, "quota"⟩, rfl⟩) (by simp) (by norm_num)).1
      (fun n m e he => by
        have hee : e = ⟨some 429, "quota"⟩ := by
          simpa [alwaysQuota, eq_comm] using he
        rw [hee]
        decide)
  · exact (exhausted_behaviour alwaysNotFound ["m1", "m2"] 2
      (fun n m => ⟨⟨some 404, "not_found"⟩, rfl⟩) (by simp) (by norm_num)).2
      (fun n m e he => by
        have hee : e = ⟨some 404, "not_found"⟩ := by
          simpa [alwaysNotFound, eq_comm] using he
        rw [hee]
        decide)

end SpeakPro
